import Mathlib

/-!
Verification of the ts-tailwindplus-downloader core against its specification.

The definitions below are shallow embeddings of the TypeScript sources:
  * `Format`, `Format.stringValue`, `Format.equals`  — src/models/format.ts
  * `ReflectingArray`, `generateFormats`             — src/models/reflecting-array.ts,
                                                       src/downloader/format-manager.ts
  * `processJobResult`                               — src/downloader/downloader.ts
  * `mergeComponentData`, `deduplicateEcommerceSnippets`
                                                     — src/downloader/output.ts
  * `collapseFormats`                                — src/downloader/unauthenticated.ts
  * `loginLoop`                                      — src/downloader/auth.ts
Machine numbers (`version: number`) are modelled as `Int`; JavaScript string
templates are modelled with `String.append` and `toString`.
-/

namespace TPD

-- ===========================================================================
-- Format value object (src/models/format.ts)
-- ===========================================================================

/-- A component format: framework (html/react/vue), Tailwind version, theme
mode (`none` for the eCommerce category, which has no mode). -/
structure Format where
  framework : String
  version : Int
  mode : Option String
deriving DecidableEq

/-- The `_stringValue` computed in the constructor:
`"${framework}-v${version}"` when `mode === null`, otherwise
`"${framework}-v${version}-${mode}"`. -/
def Format.stringValue (f : Format) : String :=
  match f.mode with
  | none => f.framework ++ "-v" ++ toString f.version
  | some m => f.framework ++ "-v" ++ toString f.version ++ "-" ++ m

/-- `Format.equals`: strict equality of the two canonical string keys. -/
def Format.equals (a b : Format) : Bool :=
  a.stringValue == b.stringValue

/-- The dimension values the program is configured with: frameworks
html/react/vue, Tailwind versions 3/4, theme modes system/light/dark, plus
the modeless (eCommerce) variant. -/
def formatVocabulary : List Format :=
  (["html", "react", "vue"].flatMap fun fw =>
    ([3, 4] : List Int).flatMap fun v =>
      ([none, some "system", some "light", some "dark"] : List (Option String)).map fun m =>
        Format.mk fw v m)

-- ===========================================================================
-- ReflectingArray (src/models/reflecting-array.ts) and
-- generateFormats (src/downloader/format-manager.ts)
-- ===========================================================================

/-- `ReflectingArray` state: the stored items plus the direction the next
traversal will use (`forward = true` initially; `[Symbol.iterator]` flips it
each time a traversal completes). -/
structure ReflectingArray (α : Type) where
  items : List α
  forward : Bool

/-- One complete `for ... of` traversal of a `ReflectingArray`: yields the
items in the current direction and returns the array with direction
flipped. -/
def ReflectingArray.traverse {α : Type} (r : ReflectingArray α) :
    List α × ReflectingArray α :=
  ((if r.forward then r.items else r.items.reverse), ⟨r.items, !r.forward⟩)

/-- The `config.download` dimension value lists. -/
structure DownloadDims where
  frameworks : List String
  versions : List Int
  modes : List String

/-- Contents of the frameworks `ReflectingArray` built by `generateFormats`:
the start framework followed by the configured frameworks other than it. -/
def effFrameworks (s : Format) (cfg : DownloadDims) : List String :=
  s.framework :: cfg.frameworks.filter (fun f => f ≠ s.framework)

/-- Contents of the versions `ReflectingArray`. -/
def effVersions (s : Format) (cfg : DownloadDims) : List Int :=
  s.version :: cfg.versions.filter (fun v => v ≠ s.version)

/-- Contents of the modes `ReflectingArray`: `startM ?? config.download.modes[0]`
followed by `config.download.modes.filter(m => m !== startM)`.  Note that when
the start mode is `null` the filter keeps every configured mode, so the first
configured mode appears twice. -/
def effModes (s : Format) (cfg : DownloadDims) : List String :=
  (match s.mode with
   | some m => m
   | none => cfg.modes.headI) :: cfg.modes.filter (fun m => some m ≠ s.mode)

/-- Innermost loop of `generateFormats`: one full traversal of the modes
`ReflectingArray` for a fixed framework and version. -/
def modesPass (fw : String) (v : Int) (ms : ReflectingArray String) :
    List Format × ReflectingArray String :=
  ((ms.traverse.1).map (fun m => ⟨fw, v, some m⟩), ms.traverse.2)

/-- Middle loop of `generateFormats`: run the modes loop for each version in
the list read off the versions `ReflectingArray`, threading the modes
direction state. -/
def versionsPass (fw : String) (vlist : List Int) (ms : ReflectingArray String) :
    List Format × ReflectingArray String :=
  match vlist with
  | [] => ([], ms)
  | v :: rest =>
    let p := modesPass fw v ms
    let q := versionsPass fw rest p.2
    (p.1 ++ q.1, q.2)

/-- Outer loop of `generateFormats` over the frameworks (the frameworks
`ReflectingArray` is traversed exactly once, in its initial forward
direction); each iteration performs one traversal of the versions
`ReflectingArray` and threads the modes state through. -/
def frameworksPass (fws : List String) (vs : ReflectingArray Int)
    (ms : ReflectingArray String) : List Format :=
  match fws with
  | [] => []
  | fw :: rest =>
    let p := versionsPass fw vs.traverse.1 ms
    p.1 ++ frameworksPass rest vs.traverse.2 p.2

/-- `generateFormats(startFormat, config)` from format-manager.ts: the three
nested `for ... of` loops over the three `ReflectingArray`s. -/
def generateFormats (s : Format) (cfg : DownloadDims) : List Format :=
  frameworksPass (effFrameworks s cfg) ⟨effVersions s cfg, true⟩ ⟨effModes s cfg, true⟩

/-- The Gray-code adjacency property claimed for the generated sequence:
whenever two adjacent formats share the framework (outermost) dimension,
exactly one of the two remaining dimensions (version, mode) differs. -/
def grayStep (a b : Format) : Prop :=
  a.framework = b.framework →
    (a.version ≠ b.version ∧ a.mode = b.mode) ∨
      (a.version = b.version ∧ a.mode ≠ b.mode)

instance : DecidableRel grayStep := fun a b =>
  inferInstanceAs (Decidable (a.framework = b.framework →
    (a.version ≠ b.version ∧ a.mode = b.mode) ∨
      (a.version = b.version ∧ a.mode ≠ b.mode)))

-- ===========================================================================
-- Component data trees (src/downloader/output.ts)
-- ===========================================================================

/-- A snippet as shaped by `shapeSnippet` (authenticated.ts): `name` is the
framework the snippet is for. -/
structure Snippet where
  code : String
  name : String
  language : String
  version : Int
  mode : Option String
  supportsDarkMode : Bool
  preview : String
deriving DecidableEq

/-- A value in a `ComponentData` object tree: a `leaf` is an object carrying a
`snippets` array (a component entry, with its `name` property); a `node` is a
container object (product / category / subcategory) whose own-property list,
in insertion order, is the association list. -/
inductive Tree where
  | leaf (name : Option String) (snippets : List Snippet)
  | node (children : List (String × Tree))

/-- The property list of a container object. -/
abbrev Forest := List (String × Tree)

/-- Property read `target[key]`. -/
def lookupKey (k : String) : Forest → Option Tree
  | [] => none
  | (k', v) :: rest => if k' = k then some v else lookupKey k rest

/-- JavaScript property assignment `target[key] = v`: replaces the value of an
existing key in place, otherwise appends the new property at the end. -/
def setKey (k : String) (v : Tree) : Forest → Forest
  | [] => [(k, v)]
  | (k', v') :: rest =>
    if k' = k then (k, v) :: rest else (k', v') :: setKey k v rest

mutual

/-- One iteration of the `for (const [key, value] of Object.entries(source))`
loop in `mergeComponentData`, for the source entry `(k, v)`.  A result of
`none` models the runs that leave the component-data shape: a source leaf
meeting a target container throws a TypeError in the original
(`targetEntry.snippets` is `undefined`), and a source container meeting a
target leaf would graft container entries onto a snippet entry, which the
component-data model cannot represent. -/
def mergeEntry (target : Forest) (k : String) (v : Tree) : Option Forest :=
  match v with
  | .leaf n ss =>
    -- `Array.isArray(obj.snippets)`: a component entry; merge its snippets
    match lookupKey k target with
    | none => some (setKey k (.leaf n ss) target)
    | some (.leaf n' ss') => some (setKey k (.leaf n' (ss' ++ ss)) target)
    | some (.node _) => none
  | .node cs =>
    -- a container: create `{}` when absent, then recurse
    match lookupKey k target with
    | some (.node cs₀) => do
        let inner ← mergeForest cs₀ cs
        some (setKey k (.node inner) target)
    | some (.leaf _ _) => none
    | none => do
        let inner ← mergeForest [] cs
        some (setKey k (.node inner) target)
termination_by sizeOf v

/-- `mergeComponentData(target, source)` from output.ts, as a function from
the old value of `target` to its new value. -/
def mergeForest (target : Forest) : Forest → Option Forest
  | [] => some target
  | (k, v) :: rest => do
      let t ← mergeEntry target k v
      mergeForest t rest
termination_by s => sizeOf s

end

/-- Folding `mergeComponentData` over a list of partial results, as the
orchestrator's serialized result-ingestion does. -/
def mergeAll (acc : Forest) : List Forest → Option Forest
  | [] => some acc
  | p :: rest => do
      let t ← mergeForest acc p
      mergeAll t rest

mutual

/-- Key-uniqueness of every property list in a tree — automatic for values
built from JavaScript objects, which cannot carry a duplicate key. -/
def treeWf : Tree → Bool
  | .leaf _ _ => true
  | .node cs => forestWf cs
termination_by t => sizeOf t

def forestWf : Forest → Bool
  | [] => true
  | (k, v) :: rest =>
    !(rest.any fun p => p.1 == k) && treeWf v && forestWf rest
termination_by f => sizeOf f

end

/-- Follows a path of keys through containers; yields the snippet list when
the path ends exactly at a component entry. -/
def leafAt : List String → Forest → Option (List Snippet)
  | [], _ => none
  | k :: rest, t =>
    match lookupKey k t, rest with
    | some (.leaf _ ss), [] => some ss
    | some (.node cs), _ => leafAt rest cs
    | _, _ => none

/-- The multiset of snippets accumulated at a path. -/
def snippetsAt (path : List String) (t : Forest) : Multiset Snippet :=
  ((leafAt path t).getD [] : List Snippet)

/-- How one merge step combines the snippet lists found at a fixed path in
the target and in the source: a source leaf is concatenated after whatever
the target held (nothing counting as the empty list); no source leaf leaves
the target untouched. -/
def leafCombine (a b : Option (List Snippet)) : Option (List Snippet) :=
  match b with
  | none => a
  | some ss => some (a.getD [] ++ ss)

-- ===========================================================================
-- First-occurrence filtering (the `seen` Set/Map idiom)
-- ===========================================================================

/-- The `seen`-collection idiom shared by `deduplicateEcommerceSnippets`
(output.ts, a `Map` keyed by a snippet key whose values are read back in
insertion order) and the eCommerce format collapse (unauthenticated.ts, a
`Set` guarding a `filter` callback): walk the list keeping an element exactly
when its key has not been seen before. -/
def firstOccGo {α : Type} (key : α → String) (seen : List String) :
    List α → List α
  | [] => []
  | a :: rest =>
    if key a ∈ seen then firstOccGo key seen rest
    else a :: firstOccGo key (key a :: seen) rest

/-- First-occurrence filtering, recursion-friendly formulation: keep the head
and drop every later element sharing its key. -/
def firstOcc {α : Type} (key : α → String) : List α → List α
  | [] => []
  | a :: rest => a :: firstOcc key (rest.filter fun b => key b ≠ key a)
termination_by l => l.length
decreasing_by
  simp only [List.length_cons]
  exact Nat.lt_succ_of_le (List.length_filter_le _ _)

-- ===========================================================================
-- deduplicateEcommerceSnippets (src/downloader/output.ts)
-- ===========================================================================

/-- The dedup key `${snippet.name}|${snippet.version}|${snippet.supportsDarkMode}`. -/
def snippetKey (s : Snippet) : String :=
  s.name ++ "|" ++ toString s.version ++ "|" ++
    (if s.supportsDarkMode then "true" else "false")

/-- The `Map`-based snippet dedup loop: keeps the first snippet for each key,
in first-occurrence order. -/
def dedupSnippets (l : List Snippet) : List Snippet :=
  firstOccGo snippetKey [] l

mutual

/-- The recursive `deduplicate` helper inside `deduplicateEcommerceSnippets`,
on a single value: an object with a snippets array gets its snippets
deduplicated; any other object has its object-valued entries visited. -/
def dedupTree : Tree → Tree
  | .leaf n ss => .leaf n (dedupSnippets ss)
  | .node cs => .node (dedupForest cs)
termination_by t => sizeOf t

def dedupForest : Forest → Forest
  | [] => []
  | (k, v) :: rest => (k, dedupTree v) :: dedupForest rest
termination_by f => sizeOf f

end

/-- `deduplicateEcommerceSnippets(data)` from output.ts: clones the tree and
runs `deduplicate` on the clone; as a pure function, the resulting value. -/
def deduplicateEcommerceSnippets (data : Forest) : Forest :=
  dedupForest data

-- ===========================================================================
-- eCommerce format collapse (src/downloader/unauthenticated.ts)
-- ===========================================================================

/-- The collapse key `${f.framework}-${f.version}`. -/
def fwvKey (f : Format) : String :=
  f.framework ++ "-" ++ toString f.version

/-- The `hasModeInputs == false` branch of `extractUnauthenticatedPageData`:
`formats.filter` guarded by a `seen` Set of framework-version keys, keeping
the first occurrence of each key. -/
def collapseFormats (formats : List Format) : List Format :=
  firstOccGo fwvKey [] formats

-- ===========================================================================
-- Login loop (src/downloader/auth.ts)
-- ===========================================================================

/-- The outcome `resilientLogin` reports for one attempt. -/
inductive LoginAttemptResult where
  | success
  | badCredentials
  | timeout
deriving DecidableEq

/-- How one run of `login` ends: normal return, or a thrown
`DownloaderError` with its message. -/
inductive LoginOutcome where
  | ok
  | fatal (msg : String)
deriving DecidableEq

/-- The `while (true)` loop of `login` (auth.ts).  The browser-dependent
outcome of the i-th `resilientLogin` call is supplied by `attempts i` and the
i-th interactive prompt answer by `answers i`; `fuel` bounds how many
iterations are unrolled, `none` meaning the loop is still running after
`fuel` iterations. -/
def loginLoop (isTTY : Bool) (attempts : Nat → LoginAttemptResult)
    (answers : Nat → String) : Nat → Nat → Option LoginOutcome
  | _, 0 => none
  | i, fuel + 1 =>
    match attempts i with
    | .success => some .ok
    | .timeout =>
      some (.fatal "Login failed: timed out waiting for login to complete.")
    | .badCredentials =>
      if !isTTY then
        some (.fatal
          "Login failed: bad credentials. Cannot prompt in non-interactive mode.")
      else if (answers i).toLower = "n" ∨ (answers i).toLower = "no" then
        some (.fatal "User aborted after failed login attempt.")
      else
        loginLoop isTTY attempts answers (i + 1) fuel

-- ===========================================================================
-- Job results (src/downloader/downloader.ts)
-- ===========================================================================

inductive JobStatus where
  | pending
  | processing
  | completed
  | failed
deriving DecidableEq

/-- A job as tracked by the orchestrator's queue. -/
structure Job where
  url : String
  status : JobStatus
  retryCount : Nat
  data : Option Forest
  error : Option String

/-- The orchestrator state touched by `processJobResult`. -/
structure OrchestratorState where
  componentData : Forest
  jobQueue : List Job

/-- The job as the failed-with-retries-left branch of `processJobResult`
rewrites it: `retryCount` incremented, status reset to pending, error
removed. -/
def retriedJob (job : Job) : Job :=
  { job with
    retryCount := job.retryCount + 1
    status := JobStatus.pending
    error := none }

/-- `processJobResult(job)` from downloader.ts, as a function returning the
updated orchestrator state and the job as the callback leaves it; a merge
that leaves the component-data shape propagates `none`. -/
def processJobResult (maxRetries : Nat) (st : OrchestratorState) (job : Job) :
    Option (OrchestratorState × Job) :=
  if job.status = .completed ∧ job.data.isSome then do
    let merged ← mergeForest st.componentData (job.data.getD [])
    some ({ st with componentData := merged }, job)
  else if job.status = .failed then
    if job.retryCount < maxRetries then
      some ({ st with jobQueue := st.jobQueue ++ [retriedJob job] },
        retriedJob job)
    else
      -- max retries exceeded: log and drop, the queue is left unchanged
      some (st, job)
  else
    some (st, job)

end TPD

section SanityChecks

open TPD

-- Reflection behaviour on a 2×2×2 instance: the traversal direction of each
-- inner dimension alternates, so consecutive formats differ in one dimension.
example :
    generateFormats ⟨"A", 1, some "x"⟩ ⟨["A", "B"], [1, 2], ["x", "y"]⟩ =
      [⟨"A", 1, some "x"⟩, ⟨"A", 1, some "y"⟩, ⟨"A", 2, some "y"⟩, ⟨"A", 2, some "x"⟩,
       ⟨"B", 2, some "x"⟩, ⟨"B", 2, some "y"⟩, ⟨"B", 1, some "y"⟩, ⟨"B", 1, some "x"⟩] := by
  decide

-- A `null` start mode duplicates the first configured mode.
example :
    generateFormats ⟨"html", 4, none⟩ ⟨["html"], [4], ["system", "light"]⟩ =
      [⟨"html", 4, some "system"⟩, ⟨"html", 4, some "system"⟩,
       ⟨"html", 4, some "light"⟩] := by
  decide

end SanityChecks

-- ===========================================================================
-- Helper lemmas about the format generator
-- ===========================================================================

namespace TPD

theorem traverse_fst_perm {α : Type} (r : ReflectingArray α) :
    r.traverse.1.Perm r.items := by
  by_cases h : r.forward <;> simp [ReflectingArray.traverse, h]

theorem traverse_fst_nodup {α : Type} (r : ReflectingArray α)
    (h : r.items.Nodup) : r.traverse.1.Nodup := by
  by_cases hf : r.forward <;> simp [ReflectingArray.traverse, hf, h]

/-- The last element yielded by one traversal is the first element yielded by
the following traversal: this is the reflecting property. -/
theorem traverse_boundary {α : Type} (r : ReflectingArray α) :
    r.traverse.1.getLast? = r.traverse.2.traverse.1.head? := by
  by_cases h : r.forward <;>
    simp [ReflectingArray.traverse, h, List.head?_reverse, List.getLast?_reverse]

theorem modesPass_fst (fw : String) (v : Int) (ms : ReflectingArray String) :
    (modesPass fw v ms).1 = ms.traverse.1.map (fun m => ⟨fw, v, some m⟩) := rfl

theorem modesPass_snd (fw : String) (v : Int) (ms : ReflectingArray String) :
    (modesPass fw v ms).2 = ms.traverse.2 := rfl

theorem versionsPass_snd_items (fw : String) :
    ∀ (vlist : List Int) (ms : ReflectingArray String),
      (versionsPass fw vlist ms).2.items = ms.items := by
  intro vlist
  induction vlist with
  | nil => intro ms; rfl
  | cons v rest ih =>
    intro ms
    simpa [versionsPass, modesPass_snd] using ih ms.traverse.2

theorem versionsPass_fst_perm (fw : String) :
    ∀ (vlist : List Int) (ms : ReflectingArray String),
      (versionsPass fw vlist ms).1.Perm
        (vlist.flatMap fun v => ms.items.map fun m => ⟨fw, v, some m⟩) := by
  intro vlist
  induction vlist with
  | nil => intro ms; simp [versionsPass]
  | cons v rest ih =>
    intro ms
    simp only [versionsPass, List.flatMap_cons]
    refine List.Perm.append ?_ ?_
    · exact (traverse_fst_perm ms).map _
    · simpa [modesPass_snd] using ih ms.traverse.2

theorem frameworksPass_perm :
    ∀ (fws : List String) (vs : ReflectingArray Int) (ms : ReflectingArray String),
      (frameworksPass fws vs ms).Perm
        (fws.flatMap fun fw => vs.items.flatMap fun v =>
          ms.items.map fun m => ⟨fw, v, some m⟩) := by
  intro fws
  induction fws with
  | nil => intro vs ms; simp [frameworksPass]
  | cons fw rest ih =>
    intro vs ms
    simp only [frameworksPass, List.flatMap_cons]
    refine List.Perm.append ?_ ?_
    · exact (versionsPass_fst_perm fw _ ms).trans
        ((traverse_fst_perm vs).flatMap_right _)
    · have h := ih vs.traverse.2 (versionsPass fw vs.traverse.1 ms).2
      simpa [ReflectingArray.traverse, versionsPass_snd_items] using h

/-- The Cartesian product of the three effective dimension lists, in the
standard nested order. -/
def productFormats (s : Format) (cfg : DownloadDims) : List Format :=
  (effFrameworks s cfg).flatMap fun fw =>
    (effVersions s cfg).flatMap fun v =>
      (effModes s cfg).map fun m => ⟨fw, v, some m⟩

theorem generateFormats_perm (s : Format) (cfg : DownloadDims) :
    (generateFormats s cfg).Perm (productFormats s cfg) :=
  frameworksPass_perm _ _ _

theorem mem_productFormats (s : Format) (cfg : DownloadDims) (f : Format) :
    f ∈ productFormats s cfg ↔
      f.framework ∈ effFrameworks s cfg ∧ f.version ∈ effVersions s cfg ∧
        ∃ m ∈ effModes s cfg, f.mode = some m := by
  simp only [productFormats, List.mem_flatMap, List.mem_map]
  constructor
  · rintro ⟨fw, hfw, v, hv, m, hm, rfl⟩
    exact ⟨hfw, hv, m, hm, rfl⟩
  · rintro ⟨h1, h2, m, hm, hmode⟩
    refine ⟨f.framework, h1, f.version, h2, m, hm, ?_⟩
    cases f
    simp_all

theorem nodup_modes_map (fw : String) (v : Int) {ms : List String}
    (h : ms.Nodup) : (ms.map fun m => (⟨fw, v, some m⟩ : Format)).Nodup := by
  refine h.map ?_
  intro m₁ m₂ e
  simpa [Format.mk.injEq] using e

theorem nodup_versions_flatMap (fw : String) {vs : List Int} {ms : List String}
    (hv : vs.Nodup) (hm : ms.Nodup) :
    (vs.flatMap fun v => ms.map fun m => (⟨fw, v, some m⟩ : Format)).Nodup := by
  induction vs with
  | nil => simp
  | cons v rest ih =>
    simp only [List.flatMap_cons]
    rw [List.nodup_append]
    refine ⟨nodup_modes_map fw v hm, ih (List.Nodup.of_cons hv), ?_⟩
    intro f hf hf'
    simp only [List.mem_map] at hf
    simp only [List.mem_flatMap, List.mem_map] at hf'
    obtain ⟨m, _, rfl⟩ := hf
    obtain ⟨v', hv', m', _, he⟩ := hf'
    have : v' = v := by simpa [Format.mk.injEq] using congrArg Format.version he
    subst this
    exact (List.nodup_cons.mp hv).1 hv'

theorem nodup_formats_flatMap {fws : List String} {vs : List Int}
    {ms : List String} (hf : fws.Nodup) (hv : vs.Nodup) (hm : ms.Nodup) :
    (fws.flatMap fun fw => vs.flatMap fun v =>
      ms.map fun m => (⟨fw, v, some m⟩ : Format)).Nodup := by
  induction fws with
  | nil => simp
  | cons fw rest ih =>
    simp only [List.flatMap_cons]
    rw [List.nodup_append]
    refine ⟨nodup_versions_flatMap fw hv hm, ih (List.Nodup.of_cons hf), ?_⟩
    intro f hf1 hf2
    simp only [List.mem_flatMap, List.mem_map] at hf1 hf2
    obtain ⟨v, _, m, _, rfl⟩ := hf1
    obtain ⟨fw', hfw', v', _, m', _, he⟩ := hf2
    have : fw' = fw := by simpa [Format.mk.injEq] using congrArg Format.framework he
    subst this
    exact (List.nodup_cons.mp hf).1 hfw'

theorem nodup_productFormats (s : Format) (cfg : DownloadDims)
    (hf : (effFrameworks s cfg).Nodup) (hv : (effVersions s cfg).Nodup)
    (hm : (effModes s cfg).Nodup) : (productFormats s cfg).Nodup :=
  nodup_formats_flatMap hf hv hm

theorem effFrameworks_nodup {s : Format} {cfg : DownloadDims}
    (h : cfg.frameworks.Nodup) : (effFrameworks s cfg).Nodup := by
  rw [effFrameworks, List.nodup_cons]
  exact ⟨fun hmem => by simp [List.mem_filter] at hmem, h.filter _⟩

theorem effVersions_nodup {s : Format} {cfg : DownloadDims}
    (h : cfg.versions.Nodup) : (effVersions s cfg).Nodup := by
  rw [effVersions, List.nodup_cons]
  exact ⟨fun hmem => by simp [List.mem_filter] at hmem, h.filter _⟩

theorem effModes_eq {s : Format} {cfg : DownloadDims} {m₀ : String}
    (hm : s.mode = some m₀) :
    effModes s cfg = m₀ :: cfg.modes.filter (fun m => m ≠ m₀) := by
  simp only [effModes, hm]
  congr 1
  apply List.filter_congr
  intro m _
  simp

theorem effModes_nodup {s : Format} {cfg : DownloadDims} {m₀ : String}
    (hmode : s.mode = some m₀) (h : cfg.modes.Nodup) :
    (effModes s cfg).Nodup := by
  rw [effModes_eq hmode, List.nodup_cons]
  exact ⟨fun hmem => by simp [List.mem_filter] at hmem, h.filter _⟩

theorem generateFormats_head {s : Format} {cfg : DownloadDims} {m₀ : String}
    (hm : s.mode = some m₀) : (generateFormats s cfg).head? = some s := by
  obtain ⟨fw, v, mo⟩ := s
  simp only [Format.mk.injEq] at hm ⊢
  subst hm
  simp [generateFormats, frameworksPass, versionsPass, modesPass,
    ReflectingArray.traverse, effFrameworks, effVersions, effModes]

theorem chain'_modesPass (fw : String) (v : Int) (ms : ReflectingArray String)
    (h : ms.items.Nodup) : List.Chain' grayStep (modesPass fw v ms).1 := by
  rw [modesPass_fst]
  refine (List.chain'_map _).2 ?_
  refine List.Chain'.imp ?_ (traverse_fst_nodup ms h).chain'
  intro m₁ m₂ hne _
  right
  exact ⟨rfl, by simpa using hne⟩

theorem mem_versionsPass_framework (fw : String) :
    ∀ (vlist : List Int) (ms : ReflectingArray String) (f : Format),
      f ∈ (versionsPass fw vlist ms).1 → f.framework = fw := by
  intro vlist
  induction vlist with
  | nil => intro ms f hf; simp [versionsPass] at hf
  | cons v rest ih =>
    intro ms f hf
    simp only [versionsPass, List.mem_append] at hf
    rcases hf with hf | hf
    · rw [modesPass_fst] at hf
      simp only [List.mem_map] at hf
      obtain ⟨m, _, rfl⟩ := hf
      rfl
    · exact ih _ f hf

theorem mem_frameworksPass_framework :
    ∀ (fws : List String) (vs : ReflectingArray Int) (ms : ReflectingArray String)
      (f : Format), f ∈ frameworksPass fws vs ms → f.framework ∈ fws := by
  intro fws
  induction fws with
  | nil => intro vs ms f hf; simp [frameworksPass] at hf
  | cons fw rest ih =>
    intro vs ms f hf
    simp only [frameworksPass, List.mem_append] at hf
    rcases hf with hf | hf
    · exact (mem_versionsPass_framework fw _ _ f hf) ▸ List.mem_cons_self _ _
    · exact List.mem_cons_of_mem _ (ih _ _ f hf)

theorem chain'_versionsPass (fw : String) :
    ∀ (vlist : List Int) (ms : ReflectingArray String),
      vlist.Nodup → ms.items.Nodup →
      List.Chain' grayStep (versionsPass fw vlist ms).1 := by
  intro vlist
  induction vlist with
  | nil => intro ms _ _; simp [versionsPass]
  | cons v rest ih =>
    intro ms hv hm
    simp only [versionsPass]
    rw [List.chain'_append]
    refine ⟨chain'_modesPass fw v ms hm,
      ih _ (List.Nodup.of_cons hv) (by rw [modesPass_snd]; exact hm), ?_⟩
    intro x hx y hy
    match rest with
    | [] => simp [versionsPass] at hy
    | v' :: rest' =>
      rw [modesPass_fst, List.getLast?_map, Option.mem_def,
        Option.map_eq_some'] at hx
      obtain ⟨mx, hmx, rfl⟩ := hx
      -- the next traversal of the modes array starts where this one ended
      have hbnd : (modesPass fw v ms).2.traverse.1.head? = some mx := by
        rw [modesPass_snd, ← traverse_boundary, hmx]
      -- so the first format of the next version block carries the same mode
      simp only [versionsPass, modesPass_fst, List.head?_append,
        List.head?_map, hbnd, Option.mem_def, Option.map_some',
        Option.or_some] at hy
      obtain rfl := Option.some.inj hy.symm
      intro _
      left
      refine ⟨?_, rfl⟩
      have hnotin : v ∉ v' :: rest' := (List.nodup_cons.mp hv).1
      intro he
      have hv' : v = v' := by simpa using he
      exact hnotin (hv' ▸ List.mem_cons_self _ _)

theorem chain'_frameworksPass :
    ∀ (fws : List String) (vs : ReflectingArray Int) (ms : ReflectingArray String),
      fws.Nodup → vs.items.Nodup → ms.items.Nodup →
      List.Chain' grayStep (frameworksPass fws vs ms) := by
  intro fws
  induction fws with
  | nil => intro vs ms _ _ _; simp [frameworksPass]
  | cons fw rest ih =>
    intro vs ms hf hv hm
    simp only [frameworksPass]
    rw [List.chain'_append]
    refine ⟨chain'_versionsPass fw _ ms (traverse_fst_nodup vs hv) hm,
      ih _ _ (List.Nodup.of_cons hf) hv
        (by rw [versionsPass_snd_items]; exact hm), ?_⟩
    intro x hx y hy
    have hxfw : x.framework = fw :=
      mem_versionsPass_framework fw _ _ x (List.mem_of_mem_getLast? hx)
    have hyfw : y.framework ∈ rest :=
      mem_frameworksPass_framework _ _ _ y (List.mem_of_mem_head? hy)
    intro he
    exact absurd (hxfw ▸ he ▸ hyfw) (List.nodup_cons.mp hf).1

-- ===========================================================================
-- First-occurrence filtering lemmas
-- ===========================================================================

theorem firstOccGo_eq {α : Type} (key : α → String) :
    ∀ (l : List α) (seen : List String),
      firstOccGo key seen l = firstOcc key (l.filter fun a => key a ∉ seen) := by
  intro l
  induction l with
  | nil => intro seen; simp [firstOccGo, firstOcc]
  | cons a rest ih =>
    intro seen
    by_cases h : key a ∈ seen
    · rw [firstOccGo, if_pos h, ih seen, List.filter_cons_of_neg (by simp [h])]
    · rw [firstOccGo, if_neg h, ih (key a :: seen),
        List.filter_cons_of_pos (by simp [h]), firstOcc]
      congr 1
      rw [List.filter_filter]
      congr 1
      apply List.filter_congr
      intro b _
      by_cases h1 : key b = key a <;> by_cases h2 : key b ∈ seen <;>
        simp [h1, h2]

theorem firstOcc_sublist {α : Type} (key : α → String) (l : List α) :
    (firstOcc key l).Sublist l := by
  refine firstOcc.induct key (fun l => (firstOcc key l).Sublist l) ?_ ?_ l
  · simp [firstOcc]
  · intro a rest ih
    rw [firstOcc]
    exact List.Sublist.cons₂ a (ih.trans (List.filter_sublist rest))

theorem find?_filter_eq {α : Type} (p q : α → Bool) :
    ∀ l : List α, (∀ a ∈ l, p a = false → q a = false) →
      (l.filter p).find? q = l.find? q := by
  intro l
  induction l with
  | nil => intro _; rfl
  | cons a rest ih =>
    intro h
    by_cases hp : p a = true
    · rw [List.filter_cons_of_pos hp]
      by_cases hq : q a = true
      · simp only [List.find?_cons, hq]
      · have hq' : q a = false := by simpa using hq
        simp only [List.find?_cons, hq']
        exact ih (fun b hb => h b (List.mem_cons_of_mem a hb))
    · have hpa : p a = false := by simpa using hp
      have hqa : q a = false := h a (List.mem_cons_self a rest) hpa
      rw [List.filter_cons_of_neg (by simp [hpa]),
        ih (fun b hb => h b (List.mem_cons_of_mem a hb))]
      simp only [List.find?_cons, hqa]

theorem firstOcc_find? {α : Type} (key : α → String) (k : String) (l : List α) :
    (firstOcc key l).find? (fun a => key a == k) =
      l.find? (fun a => key a == k) := by
  refine firstOcc.induct key (fun l =>
    (firstOcc key l).find? (fun a => key a == k) =
      l.find? (fun a => key a == k)) ?_ ?_ l
  · simp [firstOcc]
  · intro a rest ih
    rw [firstOcc]
    by_cases hk : (key a == k) = true
    · simp only [List.find?_cons, hk]
    · have hk' : (key a == k) = false := by simpa using hk
      simp only [List.find?_cons, hk']
      rw [ih]
      refine find?_filter_eq _ _ rest ?_
      intro b _ hpb
      have hba : key b = key a := by simpa using hpb
      simpa [hba] using hk'

theorem firstOcc_pairwise {α : Type} (key : α → String) (l : List α) :
    List.Pairwise (fun a b => key a ≠ key b) (firstOcc key l) := by
  refine firstOcc.induct key (fun l =>
    List.Pairwise (fun a b => key a ≠ key b) (firstOcc key l)) ?_ ?_ l
  · simp [firstOcc]
  · intro a rest ih
    rw [firstOcc]
    refine List.Pairwise.cons ?_ ih
    intro b hb
    have hb' := (firstOcc_sublist key _).subset hb
    have hne : key b ≠ key a := by simpa using List.of_mem_filter hb'
    exact fun he => hne he.symm

theorem firstOcc_idem {α : Type} (key : α → String) (l : List α) :
    firstOcc key (firstOcc key l) = firstOcc key l := by
  refine firstOcc.induct key (fun l =>
    firstOcc key (firstOcc key l) = firstOcc key l) ?_ ?_ l
  · simp [firstOcc]
  · intro a rest ih
    rw [firstOcc, firstOcc]
    have hF : (firstOcc key (rest.filter fun b => key b ≠ key a)).filter
        (fun b => key b ≠ key a) =
        firstOcc key (rest.filter fun b => key b ≠ key a) := by
      apply List.filter_eq_self.mpr
      intro b hb
      have hmem : b ∈ rest.filter (fun b => decide (key b ≠ key a)) :=
        (firstOcc_sublist key _).subset hb
      exact (List.mem_filter.mp hmem).2
    rw [hF, ih]

theorem dedupSnippets_eq_firstOcc (l : List Snippet) :
    dedupSnippets l = firstOcc snippetKey l := by
  rw [dedupSnippets, firstOccGo_eq]
  congr 1
  exact List.filter_eq_self.mpr fun b _ => by simp

theorem collapseFormats_eq_firstOcc (l : List Format) :
    collapseFormats l = firstOcc fwvKey l := by
  rw [collapseFormats, firstOccGo_eq]
  congr 1
  exact List.filter_eq_self.mpr fun b _ => by simp

theorem find?_congr {α : Type} (p q : α → Bool) :
    ∀ l : List α, (∀ a ∈ l, p a = q a) → l.find? p = l.find? q := by
  intro l
  induction l with
  | nil => intro _; rfl
  | cons a rest ih =>
    intro h
    have ha := h a (List.mem_cons_self a rest)
    simp only [List.find?_cons, ha]
    cases hq : q a with
    | true => rfl
    | false => exact ih fun b hb => h b (List.mem_cons_of_mem a hb)

-- ===========================================================================
-- Deduplication lemmas
-- ===========================================================================

theorem dedupSnippets_idem (l : List Snippet) :
    dedupSnippets (dedupSnippets l) = dedupSnippets l := by
  simp [dedupSnippets_eq_firstOcc, firstOcc_idem]

theorem lookupKey_dedupForest (k : String) :
    ∀ f : Forest, lookupKey k (dedupForest f) = (lookupKey k f).map dedupTree := by
  intro f
  induction f with
  | nil => simp [dedupForest, lookupKey]
  | cons p rest ih =>
    obtain ⟨k', v⟩ := p
    rw [dedupForest]
    by_cases h : k' = k
    · simp [lookupKey, h]
    · simp [lookupKey, h, ih]

theorem leafAt_dedupForest : ∀ (path : List String) (f : Forest),
    leafAt path (dedupForest f) = (leafAt path f).map dedupSnippets := by
  intro path
  induction path with
  | nil => intro f; simp [leafAt]
  | cons k rest ih =>
    intro f
    cases hl : lookupKey k f with
    | none => simp [leafAt, lookupKey_dedupForest, hl]
    | some t =>
      cases t with
      | leaf n ss =>
        cases rest with
        | nil => simp [leafAt, lookupKey_dedupForest, hl, dedupTree]
        | cons r rs => simp [leafAt, lookupKey_dedupForest, hl, dedupTree]
      | node cs => simp [leafAt, lookupKey_dedupForest, hl, dedupTree, ih]

-- ===========================================================================
-- Merge lemmas
-- ===========================================================================

theorem leafCombine_none_right (a : Option (List Snippet)) :
    leafCombine a none = a := rfl

theorem leafCombine_none_left (b : Option (List Snippet)) :
    leafCombine none b = b := by
  cases b <;> simp [leafCombine]

theorem lookupKey_setKey (k k' : String) (v : Tree) :
    ∀ t : Forest, lookupKey k' (setKey k v t) =
      if k = k' then some v else lookupKey k' t := by
  intro t
  induction t with
  | nil =>
    by_cases h : k = k' <;> simp [setKey, lookupKey, h]
  | cons p rest ih =>
    obtain ⟨k₀, v₀⟩ := p
    rw [setKey]
    by_cases h0 : k₀ = k
    · subst h0
      rw [if_pos rfl]
      by_cases h1 : k₀ = k'
      · simp [lookupKey, h1]
      · simp [lookupKey, h1]
    · rw [if_neg h0]
      by_cases h1 : k₀ = k'
      · have h2 : k ≠ k' := fun h2 => h0 (h1.trans h2.symm)
        simp [lookupKey, h1, h2]
      · simp [lookupKey, h1, ih]

theorem lookupKey_singleton (k k' : String) (v : Tree) :
    lookupKey k' [(k, v)] = if k = k' then some v else none := by
  rw [lookupKey]
  by_cases h : k = k' <;> simp [h, lookupKey]

theorem leafAt_cons_eq (k' : String) (p' : List String) (t : Forest) :
    leafAt (k' :: p') t = (match lookupKey k' t with
      | some (.leaf _ ss) => if p' = [] then some ss else none
      | some (.node cs) => leafAt p' cs
      | none => none) := by
  cases hl : lookupKey k' t with
  | none => cases p' <;> simp [leafAt, hl]
  | some v => cases v <;> cases p' <;> simp [leafAt, hl]

theorem lookupKey_eq_none_of_any_eq_false {k : String} :
    ∀ {rest : Forest}, (rest.any fun p => p.1 == k) = false →
      lookupKey k rest = none := by
  intro rest
  induction rest with
  | nil => intro _; rfl
  | cons q qs ih =>
    obtain ⟨kq, vq⟩ := q
    intro h
    simp only [List.any_cons, Bool.or_eq_false_iff] at h
    rw [lookupKey, if_neg (by simpa using h.1)]
    exact ih h.2

theorem forestWf_cons {k : String} {v : Tree} {rest : Forest}
    (h : forestWf ((k, v) :: rest) = true) :
    treeWf v = true ∧ forestWf rest = true ∧ lookupKey k rest = none := by
  rw [forestWf] at h
  simp only [Bool.and_eq_true, Bool.not_eq_true'] at h
  exact ⟨h.1.2, h.2, lookupKey_eq_none_of_any_eq_false h.1.1⟩

theorem leafAt_empty (path : List String) : leafAt path ([] : Forest) = none := by
  cases path with
  | nil => rfl
  | cons k p' => cases p' <;> simp [leafAt, lookupKey]

/-- Master merge lemma: at every path, a successful
`mergeComponentData(target, source)` leaves exactly the combination of the
snippet lists the target and the source held there — the target's list with
the source's concatenated after it when the source has a leaf, the target's
data untouched otherwise. -/
theorem mergeForest_leafAt :
    ∀ (t s : Forest), forestWf s = true → ∀ r, mergeForest t s = some r →
      ∀ path, leafAt path r = leafCombine (leafAt path t) (leafAt path s) := by
  intro t s
  refine mergeForest.induct
    (fun target k v => treeWf v = true →
      ∀ r, mergeEntry target k v = some r →
        ∀ path, leafAt path r =
          leafCombine (leafAt path target) (leafAt path [(k, v)]))
    (fun target s => forestWf s = true →
      ∀ r, mergeForest target s = some r →
        ∀ path, leafAt path r = leafCombine (leafAt path target) (leafAt path s))
    ?_ ?_ ?_ ?_ ?_ ?_ ?_ ?_ t s
  · -- source leaf, key absent in target: the entry is copied in
    intro target k n ss hlk _ r hr path
    simp only [mergeEntry, hlk, Option.some.injEq] at hr
    subst hr
    cases path with
    | nil => rfl
    | cons k' p' =>
      rw [leafAt_cons_eq, leafAt_cons_eq, leafAt_cons_eq,
        lookupKey_setKey, lookupKey_singleton]
      by_cases hk : k = k'
      · subst hk
        rw [if_pos rfl, if_pos rfl, hlk]
        cases p' <;> simp [leafCombine]
      · rw [if_neg hk, if_neg hk]
        rfl
  · -- source leaf meets target leaf: snippet lists are concatenated
    intro target k n ss n' ss' hlk _ r hr path
    simp only [mergeEntry, hlk, Option.some.injEq] at hr
    subst hr
    cases path with
    | nil => rfl
    | cons k' p' =>
      rw [leafAt_cons_eq, leafAt_cons_eq, leafAt_cons_eq,
        lookupKey_setKey, lookupKey_singleton]
      by_cases hk : k = k'
      · subst hk
        rw [if_pos rfl, if_pos rfl, hlk]
        cases p' <;> simp [leafCombine]
      · rw [if_neg hk, if_neg hk]
        rfl
  · -- source leaf meets target container: the TypeError case
    intro target k n ss cs hlk _ r hr
    simp [mergeEntry, hlk] at hr
  · -- source container meets target container: recurse
    intro target k cs cs₀ hlk ih hwf r hr path
    rw [treeWf] at hwf
    cases hm : mergeForest cs₀ cs with
    | none => simp [mergeEntry, hlk, hm] at hr
    | some inner =>
      simp only [mergeEntry, hlk, hm, Option.bind_eq_bind, Option.some_bind,
        Option.some.injEq] at hr
      subst hr
      cases path with
      | nil => rfl
      | cons k' p' =>
        rw [leafAt_cons_eq, leafAt_cons_eq, leafAt_cons_eq,
          lookupKey_setKey, lookupKey_singleton]
        by_cases hk : k = k'
        · subst hk
          rw [if_pos rfl, if_pos rfl, hlk]
          exact ih hwf inner hm p'
        · rw [if_neg hk, if_neg hk]
          rfl
  · -- source container meets target leaf: outside the component-data shape
    intro target k cs n ss hlk _ r hr
    simp [mergeEntry, hlk] at hr
  · -- source container, key absent in target: `{}` is created, then merged
    intro target k cs hlk ih hwf r hr path
    rw [treeWf] at hwf
    cases hm : mergeForest [] cs with
    | none => simp [mergeEntry, hlk, hm] at hr
    | some inner =>
      simp only [mergeEntry, hlk, hm, Option.bind_eq_bind, Option.some_bind,
        Option.some.injEq] at hr
      subst hr
      cases path with
      | nil => rfl
      | cons k' p' =>
        rw [leafAt_cons_eq, leafAt_cons_eq, leafAt_cons_eq,
          lookupKey_setKey, lookupKey_singleton]
        by_cases hk : k = k'
        · subst hk
          rw [if_pos rfl, if_pos rfl, hlk]
          show leafAt p' inner = leafCombine none (leafAt p' cs)
          rw [leafCombine_none_left]
          have h2 := ih hwf inner hm p'
          rw [leafAt_empty, leafCombine_none_left] at h2
          exact h2
        · rw [if_neg hk, if_neg hk]
          rfl
  · -- empty source: nothing changes
    intro target _ r hr path
    simp only [mergeForest, Option.some.injEq] at hr
    subst hr
    rw [leafAt_empty, leafCombine_none_right]
  · -- source entry list: thread the target through entry after entry
    intro target k' v rest ih1 ih2 hwf r hr path
    obtain ⟨hv, hrest, hlkrest⟩ := forestWf_cons hwf
    cases hme : mergeEntry target k' v with
    | none => simp [mergeForest, hme] at hr
    | some t' =>
      simp only [mergeForest, hme, Option.bind_eq_bind, Option.some_bind] at hr
      have h1 := ih1 hv t' hme
      have h2 := ih2 t' hrest r hr
      rw [h2 path, h1 path]
      cases path with
      | nil => rfl
      | cons k'' p' =>
        by_cases hk : k' = k''
        · subst hk
          have hC : leafAt (k' :: p') rest = none := by
            rw [leafAt_cons_eq, hlkrest]
          have hD : leafAt (k' :: p') ((k', v) :: rest) =
              leafAt (k' :: p') [(k', v)] := by
            rw [leafAt_cons_eq, leafAt_cons_eq, lookupKey_singleton,
              if_pos rfl]
            simp [lookupKey]
          rw [hC, hD, leafCombine_none_right]
        · have hB : leafAt (k'' :: p') [(k', v)] = none := by
            rw [leafAt_cons_eq, lookupKey_singleton, if_neg hk]
          have hD : leafAt (k'' :: p') ((k', v) :: rest) =
              leafAt (k'' :: p') rest := by
            rw [leafAt_cons_eq, leafAt_cons_eq]
            simp only [lookupKey, if_neg hk]
          rw [hB, hD, leafCombine_none_right]

/-- A successful merge adds the source's per-path snippet multiset to the
target's. -/
theorem mergeForest_snippetsAt {t s r : Forest} (hwf : forestWf s = true)
    (hm : mergeForest t s = some r) (path : List String) :
    snippetsAt path r = snippetsAt path t + snippetsAt path s := by
  have h := mergeForest_leafAt t s hwf r hm path
  rw [snippetsAt, snippetsAt, snippetsAt, h]
  cases hs : leafAt path s with
  | none => simp [leafCombine]
  | some ss => cases ha : leafAt path t <;> simp [leafCombine]

theorem mergeAll_snippetsAt :
    ∀ (ps : List Forest) (acc a : Forest), (∀ p ∈ ps, forestWf p = true) →
      mergeAll acc ps = some a → ∀ path,
      snippetsAt path a = snippetsAt path acc +
        (ps.map fun p => snippetsAt path p).sum := by
  intro ps
  induction ps with
  | nil =>
    intro acc a _ ha path
    simp only [mergeAll, Option.some.injEq] at ha
    subst ha
    simp
  | cons p rest ih =>
    intro acc a hwf ha path
    cases hm : mergeForest acc p with
    | none => simp [mergeAll, hm] at ha
    | some t' =>
      simp only [mergeAll, hm, Option.bind_eq_bind, Option.some_bind] at ha
      rw [ih t' a (fun q hq => hwf q (List.mem_cons_of_mem _ hq)) ha path,
        mergeForest_snippetsAt (hwf p (List.mem_cons_self _ _)) hm path]
      simp [add_assoc]

theorem dedupForest_idem : ∀ f : Forest,
    dedupForest (dedupForest f) = dedupForest f := by
  intro f
  refine dedupForest.induct
    (fun t => dedupTree (dedupTree t) = dedupTree t)
    (fun f => dedupForest (dedupForest f) = dedupForest f) ?_ ?_ ?_ ?_ f
  · intro n ss
    simp [dedupTree, dedupSnippets_idem]
  · intro cs ih
    simp [dedupTree, ih]
  · simp [dedupForest]
  · intro k v rest ih1 ih2
    simp [dedupForest, ih1, ih2]

end TPD

-- ===========================================================================
-- Claim C8
-- ===========================================================================

/-- C8: when a component section has no mode inputs (the eCommerce category),
the format sequence is collapsed by the `seen`-Set filter to one entry per
framework–version pair, keeping the first occurrence of each pair in order
(the collapsed list is a subsequence, no two kept formats share a pair, and
the first format for each pair is preserved), provided the string keys
`${framework}-${version}` distinguish the pairs that occur — true of the
program's dimension values.  On the program's 3×2×3 format sequence this
yields the 6-combination variant instead of the 18-combination variant. -/
theorem C8_ecommerce_collapse (formats : List TPD.Format)
    (hinj : ∀ f ∈ formats, ∀ g ∈ formats, TPD.fwvKey f = TPD.fwvKey g →
      f.framework = g.framework ∧ f.version = g.version) :
    (TPD.collapseFormats formats).Sublist formats ∧
    List.Pairwise
      (fun f g => ¬ (f.framework = g.framework ∧ f.version = g.version))
      (TPD.collapseFormats formats) ∧
    (∀ f ∈ formats,
      (TPD.collapseFormats formats).find?
          (fun g => g.framework == f.framework && g.version == f.version) =
        formats.find?
          (fun g => g.framework == f.framework && g.version == f.version)) ∧
    (TPD.generateFormats ⟨"html", 3, some "light"⟩
        ⟨["html", "react", "vue"], [3, 4], ["system", "light", "dark"]⟩).length
      = 18 ∧
    (TPD.collapseFormats (TPD.generateFormats ⟨"html", 3, some "light"⟩
        ⟨["html", "react", "vue"], [3, 4], ["system", "light", "dark"]⟩)).length
      = 6 := by
  refine ⟨?_, ?_, ?_, by decide, by decide⟩
  · rw [TPD.collapseFormats_eq_firstOcc]
    exact TPD.firstOcc_sublist _ _
  · rw [TPD.collapseFormats_eq_firstOcc]
    refine (TPD.firstOcc_pairwise _ _).imp ?_
    rintro f g hne ⟨h1, h2⟩
    exact hne (by rw [TPD.fwvKey, TPD.fwvKey, h1, h2])
  · intro f hf
    have hpred : ∀ g ∈ formats,
        (g.framework == f.framework && g.version == f.version) =
          (TPD.fwvKey g == TPD.fwvKey f) := by
      intro g hg
      rw [Bool.eq_iff_iff, Bool.and_eq_true, beq_iff_eq, beq_iff_eq,
        beq_iff_eq]
      constructor
      · rintro ⟨h1, h2⟩
        rw [TPD.fwvKey, TPD.fwvKey, h1, h2]
      · intro hkey
        exact hinj g hg f hf hkey
    have hsub : (TPD.collapseFormats formats).Sublist formats := by
      rw [TPD.collapseFormats_eq_firstOcc]
      exact TPD.firstOcc_sublist _ _
    calc (TPD.collapseFormats formats).find?
          (fun g => g.framework == f.framework && g.version == f.version)
        = (TPD.collapseFormats formats).find?
            (fun g => TPD.fwvKey g == TPD.fwvKey f) :=
          TPD.find?_congr _ _ _ (fun g hg => hpred g (hsub.subset hg))
      _ = formats.find? (fun g => TPD.fwvKey g == TPD.fwvKey f) := by
          rw [TPD.collapseFormats_eq_firstOcc]
          exact TPD.firstOcc_find? _ _ _
      _ = formats.find?
            (fun g => g.framework == f.framework && g.version == f.version) :=
          TPD.find?_congr _ _ _ (fun g hg => (hpred g hg).symm)

/-- Witness for C8: a three-format list with a repeated framework–version
pair. -/
theorem C8_ecommerce_collapse_witness :
    (TPD.collapseFormats [⟨"html", 3, some "light"⟩, ⟨"html", 3, some "dark"⟩,
        ⟨"react", 4, none⟩]).Sublist
      [⟨"html", 3, some "light"⟩, ⟨"html", 3, some "dark"⟩, ⟨"react", 4, none⟩] ∧
    List.Pairwise
      (fun f g : TPD.Format =>
        ¬ (f.framework = g.framework ∧ f.version = g.version))
      (TPD.collapseFormats [⟨"html", 3, some "light"⟩, ⟨"html", 3, some "dark"⟩,
        ⟨"react", 4, none⟩]) ∧
    (∀ f ∈ [TPD.Format.mk "html" 3 (some "light"),
        TPD.Format.mk "html" 3 (some "dark"), TPD.Format.mk "react" 4 none],
      (TPD.collapseFormats [⟨"html", 3, some "light"⟩, ⟨"html", 3, some "dark"⟩,
          ⟨"react", 4, none⟩]).find?
          (fun g => g.framework == f.framework && g.version == f.version) =
        [TPD.Format.mk "html" 3 (some "light"),
          TPD.Format.mk "html" 3 (some "dark"),
          TPD.Format.mk "react" 4 none].find?
          (fun g => g.framework == f.framework && g.version == f.version)) ∧
    (TPD.generateFormats ⟨"html", 3, some "light"⟩
        ⟨["html", "react", "vue"], [3, 4], ["system", "light", "dark"]⟩).length
      = 18 ∧
    (TPD.collapseFormats (TPD.generateFormats ⟨"html", 3, some "light"⟩
        ⟨["html", "react", "vue"], [3, 4], ["system", "light", "dark"]⟩)).length
      = 6 :=
  C8_ecommerce_collapse
    [⟨"html", 3, some "light"⟩, ⟨"html", 3, some "dark"⟩, ⟨"react", 4, none⟩]
    (by decide)

-- ===========================================================================
-- Claim C4
-- ===========================================================================

/-- C4: a successful `mergeComponentData(target, source)` concatenates each
incoming leaf's snippet list onto the end of the existing leaf's list (never
replacing it), and creates intermediate container nodes on demand: any path
absent from the target but carrying a leaf in the source carries that leaf
in the result; merging snippet lists `[X]` then `[Y]` for the same leaf
therefore yields `[X, Y]` in call order. -/
theorem C4_merge_concatenates (t s r : TPD.Forest)
    (hwf : TPD.forestWf s = true) (hm : TPD.mergeForest t s = some r) :
    (∀ path ss' ss, TPD.leafAt path t = some ss' →
      TPD.leafAt path s = some ss → TPD.leafAt path r = some (ss' ++ ss)) ∧
    (∀ path ss, TPD.leafAt path t = none → TPD.leafAt path s = some ss →
      TPD.leafAt path r = some ss) := by
  have h := TPD.mergeForest_leafAt t s hwf r hm
  constructor
  · intro path ss' ss ht hs
    rw [h path, ht, hs]
    simp [TPD.leafCombine]
  · intro path ss ht hs
    rw [h path, ht, hs]
    simp [TPD.leafCombine]

/-- Witness for C4: the target holds `[X]` at `p/c`; the source holds `[Y]`
at `p/c` and a fresh leaf at `p/d`. -/
theorem C4_merge_concatenates_witness :
    (∀ path ss' ss,
      TPD.leafAt path [("p", TPD.Tree.node [("c",
          TPD.Tree.leaf none [TPD.Snippet.mk "X" "html" "html" 3 none false ""])])] =
          some ss' →
      TPD.leafAt path [("p", TPD.Tree.node [("c",
          TPD.Tree.leaf none [TPD.Snippet.mk "Y" "react" "jsx" 4 none false ""]),
        ("d", TPD.Tree.leaf (some "D")
          [TPD.Snippet.mk "Z" "vue" "vue" 4 none false ""])])] = some ss →
      TPD.leafAt path [("p", TPD.Tree.node [("c", TPD.Tree.leaf none
          [TPD.Snippet.mk "X" "html" "html" 3 none false "",
            TPD.Snippet.mk "Y" "react" "jsx" 4 none false ""]),
        ("d", TPD.Tree.leaf (some "D")
          [TPD.Snippet.mk "Z" "vue" "vue" 4 none false ""])])] =
        some (ss' ++ ss)) ∧
    (∀ path ss,
      TPD.leafAt path [("p", TPD.Tree.node [("c",
          TPD.Tree.leaf none [TPD.Snippet.mk "X" "html" "html" 3 none false ""])])] =
          none →
      TPD.leafAt path [("p", TPD.Tree.node [("c",
          TPD.Tree.leaf none [TPD.Snippet.mk "Y" "react" "jsx" 4 none false ""]),
        ("d", TPD.Tree.leaf (some "D")
          [TPD.Snippet.mk "Z" "vue" "vue" 4 none false ""])])] = some ss →
      TPD.leafAt path [("p", TPD.Tree.node [("c", TPD.Tree.leaf none
          [TPD.Snippet.mk "X" "html" "html" 3 none false "",
            TPD.Snippet.mk "Y" "react" "jsx" 4 none false ""]),
        ("d", TPD.Tree.leaf (some "D")
          [TPD.Snippet.mk "Z" "vue" "vue" 4 none false ""])])] = some ss) :=
  C4_merge_concatenates _ _ _
    (by simp [TPD.forestWf, TPD.treeWf])
    (by simp [TPD.mergeForest, TPD.mergeEntry, TPD.lookupKey, TPD.setKey])

-- ===========================================================================
-- Claim C5
-- ===========================================================================

/-- C5: merging a collection of partial-result trees into an accumulator with
`mergeComponentData` is order-independent with respect to per-leaf snippet
accumulation: whenever two permutations of the same partials both merge
successfully, every path carries the same multiset of snippets in the two
results. -/
theorem C5_merge_order_independent (acc : TPD.Forest) (ps qs : List TPD.Forest)
    (hwf : ∀ p ∈ ps, TPD.forestWf p = true) (hperm : ps.Perm qs)
    (a b : TPD.Forest) (ha : TPD.mergeAll acc ps = some a)
    (hb : TPD.mergeAll acc qs = some b) (path : List String) :
    TPD.snippetsAt path a = TPD.snippetsAt path b := by
  rw [TPD.mergeAll_snippetsAt ps acc a hwf ha path,
    TPD.mergeAll_snippetsAt qs acc b
      (fun q hq => hwf q (hperm.mem_iff.mpr hq)) hb path]
  congr 1
  exact (hperm.map _).sum_eq

/-- Witness for C5: partials `{p/c ↦ [X]}` and `{p/c ↦ [Y]}` merged into the
empty accumulator in both orders. -/
theorem C5_merge_order_independent_witness :
    TPD.snippetsAt ["p", "c"]
        [("p", TPD.Tree.node [("c", TPD.Tree.leaf none
          [TPD.Snippet.mk "X" "html" "html" 3 none false "",
            TPD.Snippet.mk "Y" "react" "jsx" 4 none false ""])])] =
      TPD.snippetsAt ["p", "c"]
        [("p", TPD.Tree.node [("c", TPD.Tree.leaf (some "C")
          [TPD.Snippet.mk "Y" "react" "jsx" 4 none false "",
            TPD.Snippet.mk "X" "html" "html" 3 none false ""])])] :=
  C5_merge_order_independent []
    [[("p", TPD.Tree.node [("c", TPD.Tree.leaf none
        [TPD.Snippet.mk "X" "html" "html" 3 none false ""])])],
      [("p", TPD.Tree.node [("c", TPD.Tree.leaf (some "C")
        [TPD.Snippet.mk "Y" "react" "jsx" 4 none false ""])])]]
    [[("p", TPD.Tree.node [("c", TPD.Tree.leaf (some "C")
        [TPD.Snippet.mk "Y" "react" "jsx" 4 none false ""])])],
      [("p", TPD.Tree.node [("c", TPD.Tree.leaf none
        [TPD.Snippet.mk "X" "html" "html" 3 none false ""])])]]
    (by intro p hp
        simp only [List.mem_cons, List.not_mem_nil, or_false] at hp
        rcases hp with rfl | rfl <;> simp [TPD.forestWf, TPD.treeWf])
    (List.Perm.swap _ _ _)
    _ _
    (by simp [TPD.mergeAll, TPD.mergeForest, TPD.mergeEntry, TPD.lookupKey,
      TPD.setKey])
    (by simp [TPD.mergeAll, TPD.mergeForest, TPD.mergeEntry, TPD.lookupKey,
      TPD.setKey])
    ["p", "c"]

-- ===========================================================================
-- Claim C6
-- ===========================================================================

/-- C6: `deduplicateEcommerceSnippets` replaces each leaf's snippet list by
its first-occurrence filtering under the key
`${name}|${version}|${supportsDarkMode}` — the result is a subsequence of
the original list, no two kept snippets share a key, and for every key the
first matching snippet is unchanged — and the function is idempotent. -/
theorem C6_dedup_first_occurrence_idempotent (data : TPD.Forest)
    (path : List String) (l : List TPD.Snippet) (k : String)
    (hleaf : TPD.leafAt path data = some l) :
    TPD.deduplicateEcommerceSnippets (TPD.deduplicateEcommerceSnippets data) =
      TPD.deduplicateEcommerceSnippets data ∧
    TPD.leafAt path (TPD.deduplicateEcommerceSnippets data) =
      some (TPD.dedupSnippets l) ∧
    (TPD.dedupSnippets l).Sublist l ∧
    List.Pairwise (fun a b => TPD.snippetKey a ≠ TPD.snippetKey b)
      (TPD.dedupSnippets l) ∧
    (TPD.dedupSnippets l).find? (fun s => TPD.snippetKey s == k) =
      l.find? (fun s => TPD.snippetKey s == k) := by
  refine ⟨TPD.dedupForest_idem data, ?_, ?_, ?_, ?_⟩
  · rw [TPD.deduplicateEcommerceSnippets, TPD.leafAt_dedupForest, hleaf]
    rfl
  · rw [TPD.dedupSnippets_eq_firstOcc]
    exact TPD.firstOcc_sublist _ l
  · rw [TPD.dedupSnippets_eq_firstOcc]
    exact TPD.firstOcc_pairwise _ l
  · rw [TPD.dedupSnippets_eq_firstOcc]
    exact TPD.firstOcc_find? _ k l

/-- Witness for C6: a two-level tree whose leaf holds three snippets, two of
which share the dedup key. -/
theorem C6_dedup_first_occurrence_idempotent_witness :
    TPD.deduplicateEcommerceSnippets (TPD.deduplicateEcommerceSnippets
        [("p", TPD.Tree.node [("c",
          TPD.Tree.leaf none [TPD.Snippet.mk "x" "html" "html" 3 none false "",
            TPD.Snippet.mk "y" "html" "html" 3 none false "",
            TPD.Snippet.mk "z" "react" "jsx" 4 none true ""])])]) =
      TPD.deduplicateEcommerceSnippets
        [("p", TPD.Tree.node [("c",
          TPD.Tree.leaf none [TPD.Snippet.mk "x" "html" "html" 3 none false "",
            TPD.Snippet.mk "y" "html" "html" 3 none false "",
            TPD.Snippet.mk "z" "react" "jsx" 4 none true ""])])] ∧
    TPD.leafAt ["p", "c"] (TPD.deduplicateEcommerceSnippets
        [("p", TPD.Tree.node [("c",
          TPD.Tree.leaf none [TPD.Snippet.mk "x" "html" "html" 3 none false "",
            TPD.Snippet.mk "y" "html" "html" 3 none false "",
            TPD.Snippet.mk "z" "react" "jsx" 4 none true ""])])]) =
      some (TPD.dedupSnippets [TPD.Snippet.mk "x" "html" "html" 3 none false "",
        TPD.Snippet.mk "y" "html" "html" 3 none false "",
        TPD.Snippet.mk "z" "react" "jsx" 4 none true ""]) ∧
    (TPD.dedupSnippets [TPD.Snippet.mk "x" "html" "html" 3 none false "",
      TPD.Snippet.mk "y" "html" "html" 3 none false "",
      TPD.Snippet.mk "z" "react" "jsx" 4 none true ""]).Sublist
      [TPD.Snippet.mk "x" "html" "html" 3 none false "",
        TPD.Snippet.mk "y" "html" "html" 3 none false "",
        TPD.Snippet.mk "z" "react" "jsx" 4 none true ""] ∧
    List.Pairwise (fun a b => TPD.snippetKey a ≠ TPD.snippetKey b)
      (TPD.dedupSnippets [TPD.Snippet.mk "x" "html" "html" 3 none false "",
        TPD.Snippet.mk "y" "html" "html" 3 none false "",
        TPD.Snippet.mk "z" "react" "jsx" 4 none true ""]) ∧
    (TPD.dedupSnippets [TPD.Snippet.mk "x" "html" "html" 3 none false "",
      TPD.Snippet.mk "y" "html" "html" 3 none false "",
      TPD.Snippet.mk "z" "react" "jsx" 4 none true ""]).find?
        (fun s => TPD.snippetKey s == "html|3|false") =
      [TPD.Snippet.mk "x" "html" "html" 3 none false "",
        TPD.Snippet.mk "y" "html" "html" 3 none false "",
        TPD.Snippet.mk "z" "react" "jsx" 4 none true ""].find?
        (fun s => TPD.snippetKey s == "html|3|false") :=
  C6_dedup_first_occurrence_idempotent _ ["p", "c"] _ "html|3|false" rfl

-- ===========================================================================
-- Claim C1
-- ===========================================================================

/-- C1 (counterexample): the claim quantifies over every start format, but a
start format with a `null` mode (as `readCurrentFormat` can produce for
eCommerce pages) breaks it: with start `{html, 4, null}` and modes
`["system", "light"]`, the modes `ReflectingArray` holds
`["system", "system", "light"]` (because `m !== null` keeps every mode), so
the first generated format is `{html, 4, "system"}` — not the start format —
and the sequence contains duplicate entries. -/
theorem C1_counterexample :
    (TPD.generateFormats ⟨"html", 4, none⟩ ⟨["html"], [4], ["system", "light"]⟩).head? ≠
        some ⟨"html", 4, none⟩ ∧
      ¬ (TPD.generateFormats ⟨"html", 4, none⟩
          ⟨["html"], [4], ["system", "light"]⟩).Nodup := by
  constructor
  · decide
  · decide

/-- C1 (amended): for every start format whose mode is non-null and every
configuration whose dimension value lists are duplicate-free, the sequence
returned by `generateFormats` has the start format as its literal first
element, its set of members is exactly the Cartesian product of the three
effective dimension value lists (the start value followed by the remaining
configured values of each dimension), and the sequence has no duplicate
entries. -/
theorem C1_first_product_nodup (s : TPD.Format) (cfg : TPD.DownloadDims)
    (m₀ : String) (hm : s.mode = some m₀) (hf : cfg.frameworks.Nodup)
    (hv : cfg.versions.Nodup) (hmn : cfg.modes.Nodup) :
    (TPD.generateFormats s cfg).head? = some s ∧
      (∀ f : TPD.Format, f ∈ TPD.generateFormats s cfg ↔
        f.framework ∈ TPD.effFrameworks s cfg ∧
          f.version ∈ TPD.effVersions s cfg ∧
          ∃ m ∈ TPD.effModes s cfg, f.mode = some m) ∧
      (TPD.generateFormats s cfg).Nodup := by
  refine ⟨TPD.generateFormats_head hm, ?_, ?_⟩
  · intro f
    rw [(TPD.generateFormats_perm s cfg).mem_iff]
    exact TPD.mem_productFormats s cfg f
  · exact (TPD.generateFormats_perm s cfg).nodup_iff.mpr
      (TPD.nodup_productFormats s cfg (TPD.effFrameworks_nodup hf)
        (TPD.effVersions_nodup hv) (TPD.effModes_nodup hm hmn))

/-- Witness for C1: the amended theorem applied to the concrete start format
`{A, 1, x}` and dimensions `{[A,B], [1,2], [x,y]}`. -/
theorem C1_first_product_nodup_witness :
    (TPD.generateFormats ⟨"A", 1, some "x"⟩ ⟨["A", "B"], [1, 2], ["x", "y"]⟩).head? =
        some ⟨"A", 1, some "x"⟩ ∧
      (∀ f : TPD.Format,
        f ∈ TPD.generateFormats ⟨"A", 1, some "x"⟩ ⟨["A", "B"], [1, 2], ["x", "y"]⟩ ↔
          f.framework ∈ TPD.effFrameworks ⟨"A", 1, some "x"⟩ ⟨["A", "B"], [1, 2], ["x", "y"]⟩ ∧
            f.version ∈ TPD.effVersions ⟨"A", 1, some "x"⟩ ⟨["A", "B"], [1, 2], ["x", "y"]⟩ ∧
            ∃ m ∈ TPD.effModes ⟨"A", 1, some "x"⟩ ⟨["A", "B"], [1, 2], ["x", "y"]⟩,
              f.mode = some m) ∧
      (TPD.generateFormats ⟨"A", 1, some "x"⟩ ⟨["A", "B"], [1, 2], ["x", "y"]⟩).Nodup :=
  C1_first_product_nodup _ _ "x" rfl (by decide) (by decide) (by decide)

-- ===========================================================================
-- Claim C2
-- ===========================================================================

/-- C2 (counterexample): the claim quantifies over every sequence produced by
`generateFormats`, but with a `null`-mode start format the sequence contains
two adjacent identical formats (same framework, and zero — not one — of the
remaining dimensions differ), violating the Gray-code adjacency. -/
theorem C2_counterexample :
    ¬ List.Chain' TPD.grayStep
      (TPD.generateFormats ⟨"html", 4, none⟩ ⟨["html"], [4], ["system", "light"]⟩) := by
  intro h
  have he : TPD.generateFormats ⟨"html", 4, none⟩
      ⟨["html"], [4], ["system", "light"]⟩ =
      [⟨"html", 4, some "system"⟩, ⟨"html", 4, some "system"⟩,
       ⟨"html", 4, some "light"⟩] := by decide
  rw [he, List.chain'_cons] at h
  exact absurd (h.1 rfl) (by decide)

/-- C2 (amended): for every sequence produced by `generateFormats` from a
start format with non-null mode and duplicate-free dimension value lists, any
two adjacent formats that share the framework (outermost-dimension) value
differ in exactly one of the remaining dimensions (version or mode): the
alternating-direction traversal of `ReflectingArray` ends each modes pass on
the value the next pass starts with. -/
theorem C2_gray_adjacency (s : TPD.Format) (cfg : TPD.DownloadDims)
    (m₀ : String) (hm : s.mode = some m₀) (hf : cfg.frameworks.Nodup)
    (hv : cfg.versions.Nodup) (hmn : cfg.modes.Nodup) :
    List.Chain' TPD.grayStep (TPD.generateFormats s cfg) :=
  TPD.chain'_frameworksPass _ _ _ (TPD.effFrameworks_nodup hf)
    (TPD.effVersions_nodup hv) (TPD.effModes_nodup hm hmn)

/-- Witness for C2: the amended theorem applied to the concrete 2×2×2
instance. -/
theorem C2_gray_adjacency_witness :
    List.Chain' TPD.grayStep
      (TPD.generateFormats ⟨"A", 1, some "x"⟩ ⟨["A", "B"], [1, 2], ["x", "y"]⟩) :=
  C2_gray_adjacency _ _ "x" rfl (by decide) (by decide) (by decide)

-- ===========================================================================
-- Claim C3
-- ===========================================================================

/-- C3: for every job reported with status failed, if its `retryCount` is
strictly below the configured `maxRetries` then `processJobResult` increments
`retryCount` by one, resets the status to pending, removes the error field,
and pushes the job back onto the end of the queue; otherwise the state is
unchanged and the job is not re-enqueued.  In either case the job's
`retryCount` never decreases and never exceeds `maxRetries`, and the merged
component data is untouched. -/
theorem C3_failed_job_retry (maxRetries : Nat) (st : TPD.OrchestratorState)
    (job : TPD.Job) (h : job.status = .failed) :
    (job.retryCount < maxRetries →
      TPD.processJobResult maxRetries st job =
        some ({ st with jobQueue := st.jobQueue ++ [TPD.retriedJob job] },
          TPD.retriedJob job) ∧
        (TPD.retriedJob job).retryCount = job.retryCount + 1 ∧
        (TPD.retriedJob job).status = .pending ∧
        (TPD.retriedJob job).error = none) ∧
    (¬ job.retryCount < maxRetries →
      TPD.processJobResult maxRetries st job = some (st, job)) ∧
    (∀ st' job',
      TPD.processJobResult maxRetries st job = some (st', job') →
        job.retryCount ≤ job'.retryCount ∧
          (job.retryCount ≤ maxRetries → job'.retryCount ≤ maxRetries) ∧
          st'.componentData = st.componentData) := by
  have hnc : ¬ (job.status = .completed ∧ job.data.isSome) := by
    rw [h]
    rintro ⟨hc, -⟩
    exact absurd hc (by decide)
  refine ⟨?_, ?_, ?_⟩
  · intro hlt
    refine ⟨?_, rfl, rfl, rfl⟩
    simp [TPD.processJobResult, hnc, h, hlt]
  · intro hge
    simp [TPD.processJobResult, hnc, h, hge]
  · intro st' job' hres
    by_cases hlt : job.retryCount < maxRetries
    · simp only [TPD.processJobResult, if_neg hnc, h, if_pos rfl,
        if_pos hlt, Option.some.injEq, Prod.mk.injEq] at hres
      obtain ⟨rfl, rfl⟩ := hres.symm
      refine ⟨Nat.le_succ _, fun _ => hlt, rfl⟩
    · simp only [TPD.processJobResult, if_neg hnc, h, if_pos rfl,
        if_neg hlt, Option.some.injEq, Prod.mk.injEq] at hres
      obtain ⟨rfl, rfl⟩ := hres.symm
      exact ⟨Nat.le_refl _, fun hle => hle, rfl⟩

/-- Witness for C3: a failed job with `retryCount = 0` under
`maxRetries = 3`. -/
theorem C3_failed_job_retry_witness :
    ((TPD.Job.mk "u" .failed 0 none (some "boom")).retryCount < 3 →
      TPD.processJobResult 3 ⟨[], []⟩ (TPD.Job.mk "u" .failed 0 none (some "boom")) =
        some ({ TPD.OrchestratorState.mk [] [] with
            jobQueue := ([] : List TPD.Job) ++
              [TPD.retriedJob (TPD.Job.mk "u" .failed 0 none (some "boom"))] },
          TPD.retriedJob (TPD.Job.mk "u" .failed 0 none (some "boom"))) ∧
        (TPD.retriedJob (TPD.Job.mk "u" .failed 0 none (some "boom"))).retryCount =
          (TPD.Job.mk "u" .failed 0 none (some "boom")).retryCount + 1 ∧
        (TPD.retriedJob (TPD.Job.mk "u" .failed 0 none (some "boom"))).status = .pending ∧
        (TPD.retriedJob (TPD.Job.mk "u" .failed 0 none (some "boom"))).error = none) ∧
    (¬ (TPD.Job.mk "u" .failed 0 none (some "boom")).retryCount < 3 →
      TPD.processJobResult 3 ⟨[], []⟩ (TPD.Job.mk "u" .failed 0 none (some "boom")) =
        some (⟨[], []⟩, TPD.Job.mk "u" .failed 0 none (some "boom"))) ∧
    (∀ st' job',
      TPD.processJobResult 3 ⟨[], []⟩ (TPD.Job.mk "u" .failed 0 none (some "boom")) =
          some (st', job') →
        (TPD.Job.mk "u" .failed 0 none (some "boom")).retryCount ≤ job'.retryCount ∧
          ((TPD.Job.mk "u" .failed 0 none (some "boom")).retryCount ≤ 3 →
            job'.retryCount ≤ 3) ∧
          st'.componentData = TPD.OrchestratorState.componentData ⟨[], []⟩) :=
  C3_failed_job_retry 3 ⟨[], []⟩ (TPD.Job.mk "u" .failed 0 none (some "boom")) rfl

-- ===========================================================================
-- Claim C9
-- ===========================================================================

/-- C9: in a non-interactive run (no TTY), a login attempt that resolves to
the bad-credentials outcome makes `login` throw the fatal `DownloaderError`
immediately: for every attempt oracle whose first outcome is bad
credentials, the loop stops after that single attempt — for any remaining
fuel, any later outcomes and any prompt answers — with that error. -/
theorem C9_noninteractive_bad_credentials
    (attempts : Nat → TPD.LoginAttemptResult) (answers : Nat → String)
    (fuel : Nat) (h0 : attempts 0 = .badCredentials) (hfuel : 0 < fuel) :
    TPD.loginLoop false attempts answers 0 fuel =
      some (.fatal
        "Login failed: bad credentials. Cannot prompt in non-interactive mode.") := by
  match fuel, hfuel with
  | n + 1, _ => simp [TPD.loginLoop, h0]

/-- Witness for C9: credentials that always produce the bad-credentials
signal, five iterations of fuel available. -/
theorem C9_noninteractive_bad_credentials_witness :
    TPD.loginLoop false (fun _ => .badCredentials) (fun _ => "") 0 5 =
      some (.fatal
        "Login failed: bad credentials. Cannot prompt in non-interactive mode.") :=
  C9_noninteractive_bad_credentials (fun _ => .badCredentials) (fun _ => "") 5
    rfl (by decide)

-- ===========================================================================
-- Claim C7
-- ===========================================================================

/-- C7 (counterexample): `Format.equals` is derived from the canonical string
key alone, and the key encoding is not injective on arbitrary dimension
values: the formats `{framework := "a", version := 1, mode := "v2"}` and
`{framework := "a-v1", version := 2, mode := null}` both have key
`"a-v1-v2"`, so `equals` returns `true` although every dimension differs. -/
theorem C7_counterexample :
    TPD.Format.equals ⟨"a", 1, some "v2"⟩ ⟨"a-v1", 2, none⟩ = true ∧
    (TPD.Format.mk "a" 1 (some "v2")).framework ≠ (TPD.Format.mk "a-v1" 2 none).framework ∧
    (TPD.Format.mk "a" 1 (some "v2")).version ≠ (TPD.Format.mk "a-v1" 2 none).version ∧
    (TPD.Format.mk "a" 1 (some "v2")).mode ≠ (TPD.Format.mk "a-v1" 2 none).mode := by
  refine ⟨by decide, by decide, by decide, by decide⟩

/-- C7 (amended): for formats drawn from the program's configured dimension
values (frameworks html/react/vue, versions 3/4, modes
system/light/dark/null), `Format.equals` returns `true` iff the two formats
agree on all three dimensions.  In general `equals` is equality of the
canonical string keys, which agreement on all dimensions always implies. -/
theorem C7_equals_iff_dimensions (a : TPD.Format) (ha : a ∈ TPD.formatVocabulary)
    (b : TPD.Format) (hb : b ∈ TPD.formatVocabulary) :
    TPD.Format.equals a b = true ↔
      a.framework = b.framework ∧ a.version = b.version ∧ a.mode = b.mode := by
  revert hb; revert b; revert ha; revert a
  decide

/-- Witness for C7: instantiate the amended theorem at two concrete formats
from the vocabulary that differ only in framework. -/
theorem C7_equals_iff_dimensions_witness :
    (TPD.Format.equals ⟨"html", 3, some "system"⟩ ⟨"react", 3, some "system"⟩ = true ↔
      (TPD.Format.mk "html" 3 (some "system")).framework =
          (TPD.Format.mk "react" 3 (some "system")).framework ∧
        (TPD.Format.mk "html" 3 (some "system")).version =
          (TPD.Format.mk "react" 3 (some "system")).version ∧
        (TPD.Format.mk "html" 3 (some "system")).mode =
          (TPD.Format.mk "react" 3 (some "system")).mode) :=
  C7_equals_iff_dimensions _ (by decide) _ (by decide)
